import Mathlib

/-!
Verification of the gateway core against its natural-language specification.
Paths and header values are modelled as lists of characters, bodies as lists
of byte values (`Nat` below 256), and the stateful request pipeline as
explicit state-passing functions, all translated from the Go sources.
-/

namespace Gateway

/-! ## Router path cleaning (`router/mux`, `cleanPath`) -/

/-- Element processing of Go's standard-library `path.Clean` on a rooted
path: an empty element or `.` is dropped, `..` pops the last kept element
(or is dropped at the root), and any other element is kept.  The
accumulator holds the kept elements in reverse order. -/
def cleanStep (acc : List (List Char)) (s : List Char) : List (List Char) :=
  if s = [] ∨ s = ['.'] then acc
  else if s = ['.', '.'] then acc.tail
  else s :: acc

/-- Modelled from the spec: Go's standard-library `path.Clean` (not part of
this repository's sources) restricted to rooted paths, which is the only way
`cleanPath` invokes it: redundant slashes and `.`/`..` elements are resolved
and the result is `/` followed by the kept elements joined by `/`, or `/`
alone when nothing is kept. -/
def pathClean (p : List Char) : List Char :=
  match ((p.splitOn '/').foldl cleanStep []).reverse with
  | [] => ['/']
  | out => '/' :: ['/'].intercalate out

/-- Translation of `cleanPath` from `router/mux`: empty becomes `/`, a
missing leading slash is added, the path is cleaned, and a trailing slash of
the (slash-prefixed) input is restored unless the cleaned path is the
root. -/
def cleanPath (p : List Char) : List Char :=
  if p = [] then ['/']
  else
    let p1 := if p.head? ≠ some '/' then '/' :: p else p
    let np := pathClean p1
    if p1.getLast? = some '/' ∧ np ≠ ['/'] then np ++ ['/'] else np

/-- Path elements that `path.Clean` keeps: nonempty and neither `.` nor `..`. -/
def goodSeg (s : List Char) : Prop := s ≠ [] ∧ s ≠ ['.'] ∧ s ≠ ['.', '.']

/-! ## Backend nodes (client package, second embedded document of
`src/middleware/tracing/tracing.go`) -/

/-- Endpoint protocol from the gateway configuration. -/
inductive Protocol
  | http
  | grpc
deriving Repr, DecidableEq

/-- Translation of the `node` struct of the client package (embedded in
`src/middleware/tracing/tracing.go`): the address, the service name, the
weight pointer, the version, the metadata map, the protocol and the TLS
flag; the `*http.Client` handle the struct also carries is a runtime
resource and is not modelled. -/
structure Node where
  address : String
  name : String
  weight : Option Int
  version : String
  metadata : List (String × String)
  protocol : Protocol
  tls : Bool
deriving Repr, DecidableEq

/-- Translation of `NodeOptions` (client package, embedded in
`tracing.go`). -/
structure NodeOptions where
  TLS : Bool
  TLSConfigName : String
deriving Repr, DecidableEq

/-- Translation of the `WithTLS` node option: sets the `TLS` field. -/
def WithTLS (b : Bool) (o : NodeOptions) : NodeOptions :=
  { o with TLS := b }

/-- Translation of the `WithTLSConfigName` node option: sets the
`TLSConfigName` field. -/
def WithTLSConfigName (name : String) (o : NodeOptions) : NodeOptions :=
  { o with TLSConfigName := name }

/-- Translation of `newNode` (client package, embedded in `tracing.go`):
the fields are copied from the arguments, the option functions are applied
in order to zero-valued options, and the node's `tls` flag — false by
default — is set exactly when the resulting `TLS` option is true (the
per-protocol and TLS-store client selection only picks the unmodelled
client handle). -/
def newNode (addr : String) (protocol : Protocol) (weight : Option Int)
    (md : List (String × String)) (version name : String)
    (opts : List (NodeOptions → NodeOptions)) : Node :=
  let opt := opts.foldl (fun o f => f o) { TLS := false, TLSConfigName := "" }
  { address := addr, name := name, weight := weight, version := version,
    metadata := md, protocol := protocol,
    tls := if opt.TLS then true else false }

/-! ## Retry-exclusion filter (`middleware/request.go`, `NewRequestOptions`) -/

/-- Translation of the node filter installed by `NewRequestOptions`: with no
tried backends the node list passes through unchanged; otherwise the nodes
whose address is among the tried backends are dropped, unless that would
leave no node, in which case the original list is returned. -/
def retryFilter (backends : List String) (nodes : List Node) : List Node :=
  if backends.length = 0 then nodes
  else
    let newNodes := nodes.filter (fun n => !backends.contains n.address)
    if newNodes.length = 0 then nodes else newNodes

/-! ## Hot reload (`proxy/proxy.go`, `Proxy.Update` and `closeOnError`) -/

/-- Per-endpoint effect of one `Update` iteration, as `Proxy.Update`
observes it: whether `buildEndpoint` succeeded (on failure it returns no
closer to `Update`), whether `router.Handle` succeeded, and the identity of
the closer a successful build hands to `Update`. -/
structure EndpointBuild where
  closerId : Nat
  buildOk : Bool
  registerOk : Bool
deriving Repr, DecidableEq

/-- Observable outcome of one `Proxy.Update` call: whether the new router
was swapped in, whether an error was returned, and which closers the
deferred `closeOnError` calls invoked (deferred calls run in reverse
collection order, and `closeOnError` only acts when an error is being
returned). -/
structure UpdateResult where
  routerIsNew : Bool
  errored : Bool
  closed : List Nat
deriving Repr, DecidableEq

/-- Translation of the endpoint loop of `Proxy.Update`: build each endpoint,
defer `closeOnError` for its closer, register the handler; the first
failure stops the loop.  Returns whether an error occurred together with
the closers collected so far (in collection order). -/
def updateLoop : List EndpointBuild → List Nat → Bool × List Nat
  | [], acc => (false, acc)
  | e :: rest, acc =>
    if !e.buildOk then (true, acc)
    else if !e.registerOk then (true, acc ++ [e.closerId])
    else updateLoop rest (acc ++ [e.closerId])

/-- Translation of `Proxy.Update`: on failure the collected closers are
closed by the deferred `closeOnError` calls (last collected first) and the
previously installed router stays; on success the new router is swapped in
and `closeOnError` closes nothing. -/
def update (es : List EndpointBuild) : UpdateResult :=
  match updateLoop es [] with
  | (true, collected) =>
    { routerIsNew := false, errored := true, closed := collected.reverse }
  | (false, _) => { routerIsNew := true, errored := false, closed := [] }

/-! ## Errors and `writeError` (`proxy/proxy.go`) -/

/-- Error values as the proxy distinguishes them: whether `errors.Is`
matches `context.Canceled` or `context.DeadlineExceeded`, and the message
returned by `Error()`. -/
structure GoError where
  isCanceled : Bool
  isDeadlineExceeded : Bool
  msg : String
deriving Repr, DecidableEq

/-- Modelled from the spec: the kratos `status.ToGRPCCode` conversion (a
library dependency, not among the provided sources), per the Google
canonical HTTP-to-gRPC mapping for the statuses `writeError` produces:
499 to CANCELLED (1), 504 to DEADLINE_EXCEEDED (4), 502 to UNAVAILABLE
(14), anything else to UNKNOWN (2). -/
def toGRPCCode (statusCode : Nat) : Nat :=
  if statusCode = 499 then 1
  else if statusCode = 504 then 4
  else if statusCode = 502 then 14
  else 2

/-- Response observed by the client after `writeError`: the written HTTP
status, the status counted by the requests metric, and the headers set on
the gRPC translation path. -/
structure ErrorResponse where
  statusCode : Nat
  metricCode : Nat
  contentType : Option String
  grpcStatus : Option Nat
  grpcMessage : Option String
deriving Repr, DecidableEq

/-- Translation of `writeError`: cancellation or a client disconnect maps
to 499, deadline exceeded to 504, everything else to 502; the requests
metric counts that mapped status; for a gRPC endpoint the response instead
carries HTTP 200 with `Content-Type: application/grpc`, `Grpc-Status` from
`toGRPCCode` of the mapped status and `Grpc-Message` from the error
text. -/
def writeError (protocol : Protocol) (err : GoError) : ErrorResponse :=
  let statusCode :=
    if err.isCanceled = true ∨ err.msg = "client disconnected" then 499
    else if err.isDeadlineExceeded = true then 504
    else 502
  if protocol = Protocol.grpc then
    { statusCode := 200, metricCode := statusCode,
      contentType := some "application/grpc",
      grpcStatus := some (toGRPCCode statusCode),
      grpcMessage := some err.msg }
  else
    { statusCode := statusCode, metricCode := statusCode,
      contentType := none, grpcStatus := none, grpcMessage := none }

/-! ## Retry breaker telemetry (`proxy/proxy.go`) -/

/-- Translation of the `failed` handler built by `splitRetryMetricsHandler`:
the failed-retry metric is incremented only for attempts with `i > 0` whose
error is not a context cancellation. -/
def splitRetryFailed (i : Int) (err : GoError) : Bool :=
  if i ≤ 0 then false
  else if err.isCanceled = true then false
  else true

/-- Translation of `markFailed` from `Proxy.buildEndpoint`: the first
component tells whether the failed-retry metric was incremented, the second
whether `retryBreaker.MarkFailed()` was invoked (which happens for every
attempt with `i > 0`, whatever the error). -/
def markFailed (i : Int) (err : GoError) : Bool × Bool :=
  (splitRetryFailed i err, decide (0 < i))

/-! ## Transcoder request direction (`middleware/transcoder/transcoder.go`) -/

/-- Translation of Go `strings.TrimLeft`: removes the leading characters
contained in `cutset` (a character set, not a text segment). -/
def trimLeft (s cutset : List Char) : List Char :=
  s.dropWhile (fun c => cutset.contains c)

/-- Content type the transcoder sets on the outbound request:
`application/grpc+` followed by the inbound content type trimmed with the
cutset `application/`. -/
def transcodeContentType (contentType : List Char) : List Char :=
  "application/grpc+".data ++ trimLeft contentType "application/".data

/-- Big-endian bytes written by `binary.BigEndian.PutUint32` for the value
`uint32(n)`: the four base-256 digits of `n` modulo `2 ^ 32`. -/
def putUint32BE (n : Nat) : List Nat :=
  [n / 2 ^ 24 % 256, n / 2 ^ 16 % 256, n / 2 ^ 8 % 256, n % 256]

/-- Outbound request produced by the transcoder middleware on its active
path: the framed body, the `ContentLength` field, the rewritten content
type and whether a `Content-Length` header remains. -/
structure TranscodedRequest where
  body : List Nat
  contentLength : Nat
  contentType : List Char
  hasContentLengthHeader : Bool
deriving Repr, DecidableEq

/-- Translation of the request direction of the transcoder `Middleware`:
allocate `len(b) + 5` bytes (flag byte zero), write the body length
big-endian at offset 1, copy the body at offset 5, rewrite the content
type, delete the `Content-Length` header and set `ContentLength` to the
frame length. -/
def transcodeRequest (contentType : List Char) (b : List Nat) : TranscodedRequest :=
  { body := 0 :: (putUint32BE b.length ++ b),
    contentLength := b.length + 5,
    contentType := transcodeContentType contentType,
    hasContentLengthHeader := false }

/-! ## Attempt loop and the done callback (`proxy/proxy.go` handler and
`client/client.go` `RoundTrip`) -/

/-- Outcome of one attempt's pass through the middleware chain into
`client.RoundTrip`: the selector may fail (no node, no callback); the
transport call may fail after a node was selected (RoundTrip invokes the
done callback with the error); or a response comes back, in which case
RoundTrip stores the done callback on the request options, and the
response carries the verdict of `judgeRetryRequired`, whether its body is
nil and whether copying it to the client fails. -/
inductive AttemptOutcome
  | selectErr
  | transportErr
  | response (retryRequired bodyNil copyFails : Bool)
deriving Repr, DecidableEq

/-- How a done callback was invoked: with an error or with reply
metadata. -/
inductive DoneKind
  | err
  | reply
deriving Repr, DecidableEq

/-- State threaded through the attempt loop of the endpoint handler:
whether the `err` variable is non-nil, the attempt index of the response
held in `resp` (none when nil), the attempt index whose done callback is
stored in `reqOpts.DoneFunc`, the indices of attempts for which the
selector returned a node (ghost instrumentation), and the done-callback
invocations so far, in order (ghost instrumentation). -/
structure LoopState where
  errSet : Bool
  resp : Option Nat
  doneFunc : Option Nat
  selected : List Nat
  events : List (Nat × DoneKind)
deriving Repr, DecidableEq

/-- Translation of the retry loop in the handler returned by
`Proxy.buildEndpoint`, with `client.RoundTrip` inlined as `outcome`: for
`i > 0` a disabled retry feature or a refusing breaker stops the loop; a
done context records the error and stops; otherwise the attempt runs and
either records an error (selector failure, or transport failure after
invoking the done callback with the error), or yields a response, which
ends the loop unless the retry conditions demand another attempt. -/
def attemptLoop (retryEnabled : Bool) (breakerAllow ctxDone : Nat → Bool)
    (outcome : Nat → AttemptOutcome) : Nat → Nat → LoopState → LoopState
  | _, 0, st => st
  | i, rem + 1, st =>
    if 0 < i ∧ retryEnabled = false then st
    else if 0 < i ∧ breakerAllow i = false then st
    else if ctxDone i then { st with errSet := true }
    else
      match outcome i with
      | AttemptOutcome.selectErr =>
        attemptLoop retryEnabled breakerAllow ctxDone outcome (i + 1) rem
          { st with errSet := true, resp := none }
      | AttemptOutcome.transportErr =>
        attemptLoop retryEnabled breakerAllow ctxDone outcome (i + 1) rem
          { st with
              errSet := true
              resp := none
              selected := st.selected ++ [i]
              events := st.events ++ [(i, DoneKind.err)] }
      | AttemptOutcome.response retryRequired _ _ =>
        let st' : LoopState :=
          { st with
              errSet := false
              resp := some i
              doneFunc := some i
              selected := st.selected ++ [i] }
        if retryRequired then
          attemptLoop retryEnabled breakerAllow ctxDone outcome (i + 1) rem st'
        else st'

/-- Observable outcome of the whole handler run: the final loop state,
whether `writeError` ran, which attempt's response was written back, and
all done-callback invocations. -/
structure ExecResult where
  finalState : LoopState
  wroteError : Bool
  copiedResp : Option Nat
  events : List (Nat × DoneKind)
deriving Repr, DecidableEq

/-- Translation of the endpoint handler after the retry loop: a pending
error goes to `writeError`; otherwise the response is written and
`doCopyBody` runs, which invokes the stored done callback exactly when the
response body is not nil, with the copy error or with the reply
metadata. -/
def finishRequest (outcome : Nat → AttemptOutcome) (st : LoopState) : ExecResult :=
  if st.errSet then
    { finalState := st, wroteError := true, copiedResp := none, events := st.events }
  else
    match st.resp, st.doneFunc with
    | some j, some d =>
      match outcome j with
      | AttemptOutcome.response _ bodyNil copyFails =>
        if bodyNil then
          { finalState := st, wroteError := false, copiedResp := some j,
            events := st.events }
        else
          { finalState := st, wroteError := false, copiedResp := some j,
            events := st.events ++ [(d, if copyFails then DoneKind.err else DoneKind.reply)] }
      | _ =>
        { finalState := st, wroteError := false, copiedResp := some j,
          events := st.events }
    | _, _ =>
      { finalState := st, wroteError := false, copiedResp := none,
        events := st.events }

/-- Whole handler run: the retry loop from attempt 0 on a fresh request
state, then the post-loop error or body-copy stage. -/
def handleRequest (attempts : Nat) (retryEnabled : Bool)
    (breakerAllow ctxDone : Nat → Bool) (outcome : Nat → AttemptOutcome) :
    ExecResult :=
  finishRequest outcome
    (attemptLoop retryEnabled breakerAllow ctxDone outcome 0 attempts
      { errSet := false, resp := none, doneFunc := none, selected := [], events := [] })

/-- Consistency invariant of the attempt loop: selected attempts lie below
the current index, none of them had a selector failure, they are distinct,
the events so far are exactly one error invocation per transport-failed
selected attempt (in order), and a stored response comes from a
response-outcome attempt whose done callback is the stored one. -/
def LoopInv (outcome : Nat → AttemptOutcome) (cur : Nat) (st : LoopState) : Prop :=
  (∀ i ∈ st.selected, i < cur ∧ outcome i ≠ AttemptOutcome.selectErr) ∧
  st.selected.Nodup ∧
  st.events = (st.selected.filter
      (fun i => decide (outcome i = AttemptOutcome.transportErr))).map
      (fun i => (i, DoneKind.err)) ∧
  (∀ j, st.resp = some j → st.doneFunc = some j ∧
    ∃ rr bn cf, outcome j = AttemptOutcome.response rr bn cf)

/-! ## Discovery node assembly (`nodeApplier.Callback`, `client/target.go`,
`client/servicewatch.go`) -/

/-- Parsed endpoint URI of a discovered instance, as `parseEndpoint` and
`IsSecure` consume the result of `url.Parse`: the scheme, the host and the
`isSecure` query parameter (empty when absent). -/
structure EndpointURI where
  scheme : String
  host : String
  isSecureParam : String
deriving Repr, DecidableEq

/-- Translation of Go `strconv.ParseBool`. -/
def parseBoolGo (s : String) : Option Bool :=
  if s = "1" ∨ s = "t" ∨ s = "T" ∨ s = "true" ∨ s = "TRUE" ∨ s = "True" then some true
  else if s = "0" ∨ s = "f" ∨ s = "F" ∨ s = "false" ∨ s = "FALSE" ∨ s = "False" then
    some false
  else none

/-- Translation of `IsSecure` (`client/target.go`): the `isSecure` query
parameter parsed as a bool, false when parsing fails. -/
def IsSecure (u : EndpointURI) : Bool :=
  (parseBoolGo u.isSecureParam).getD false

/-- Translation of `parseEndpoint` (`client/target.go`): the host of the
first endpoint whose scheme matches and whose `IsSecure` flag equals the
requested one; the empty string when no endpoint matches. -/
def parseEndpoint (endpoints : List EndpointURI) (scheme : String)
    (isSecure : Bool) : String :=
  match endpoints.find? (fun u => u.scheme == scheme && IsSecure u == isSecure) with
  | some u => u.host
  | none => ""

/-- Discovered service instance as `nodeApplier.Callback` consumes it. -/
structure ServiceInstance where
  id : String
  version : String
  name : String
  metadata : List (String × String)
  endpoints : List EndpointURI
deriving Repr, DecidableEq

/-- Go map lookup on the metadata map, modelled as first-match on an
association list. -/
def mapGet (md : List (String × String)) (key : String) : Option String :=
  match md.find? (fun kv => kv.1 == key) with
  | some kv => some kv.2
  | none => none

/-- Modelled from the spec: Go `strconv.ParseInt` for base 10 on the
decimal strings instance metadata carries (sign followed by digits; `0` on
malformed input, matching the ignored-error use in `nodeWeight`). -/
def parseIntGo (s : String) : Int :=
  let core (ds : List Char) : Option Nat :=
    if ds = [] then none
    else
      ds.foldl (fun acc c =>
        match acc with
        | none => none
        | some v => if c.isDigit then some (v * 10 + (c.toNat - 48)) else none)
        (some 0)
  match s.data with
  | '-' :: ds => match core ds with | some v => -(v : Int) | none => 0
  | '+' :: ds => match core ds with | some v => (v : Int) | none => 0
  | ds => match core ds with | some v => (v : Int) | none => 0

/-- Translation of `nodeWeight`: the `weight` metadata entry parsed as an
integer, replaced by the default 10 when absent or not positive. -/
def nodeWeight (ser : ServiceInstance) : Int :=
  match mapGet ser.metadata "weight" with
  | some w =>
    let val := parseIntGo w
    if val ≤ 0 then 10 else val
  | none => 10

/-- Scheme string `Callback` computes for `parseEndpoint`: the endpoint's
protocol name lowercased. -/
def protocolScheme : Protocol → String
  | Protocol.http => "http"
  | Protocol.grpc => "grpc"

/-- Node constructed by `nodeApplier.Callback` for one instance: the
address comes from `parseEndpoint` with `isSecure = false` and the node is
built by `newNode` with the instance weight, metadata, version and name
and the option `WithTLS(false)`; `none` when no address resolves, in which
case the instance is skipped. -/
def nodeOfInstance (protocol : Protocol) (ser : ServiceInstance) : Option Node :=
  let addr := parseEndpoint ser.endpoints (protocolScheme protocol) false
  if addr = "" then none
  else some (newNode addr protocol (some (nodeWeight ser)) ser.metadata
    ser.version ser.name [WithTLS false])

/-- Translation of `nodeApplier.Callback` as a transformer of the
selector's node set: a canceled applier returns `ErrCancelWatch`; an empty
service list returns before `picker.Apply`, leaving the node set untouched;
otherwise the node set becomes exactly the nodes built from the instances,
skipped instances omitted. -/
def nodeApplierCallback (canceled : Bool) (protocol : Protocol)
    (services : List ServiceInstance) (picker : List Node) :
    Except String (List Node) :=
  if canceled then Except.error "cancel watch"
  else if services.length = 0 then Except.ok picker
  else Except.ok (services.filterMap (nodeOfInstance protocol))

/-- Result of one `watcher.Next()` call observed by the update loop of
`serviceWatcher.Add`. -/
inductive NextResult
  | nextErr (isCanceled : Bool)
  | ok (services : List ServiceInstance)
deriving Repr, DecidableEq

/-- Effect of one iteration of that update loop. -/
inductive WatchEffect
  | terminated
  | retryAfterSleep
  | skipped
  | fanout (services : List ServiceInstance)
deriving Repr, DecidableEq

/-- Translation of one iteration of the background update loop spawned by
`serviceWatcher.Add`: a canceled watch terminates the loop; any other error
sleeps and retries; an empty instance list is skipped before the cache
write and the fan-out; otherwise the list is cached and fanned out.
Returns the new cache contents together with the effect. -/
def watchLoopIter (cache : List ServiceInstance) :
    NextResult → List ServiceInstance × WatchEffect
  | NextResult.nextErr true => (cache, WatchEffect.terminated)
  | NextResult.nextErr false => (cache, WatchEffect.retryAfterSleep)
  | NextResult.ok services =>
    if services.length = 0 then (cache, WatchEffect.skipped)
    else (services, WatchEffect.fanout services)

example : cleanPath "abc//./x/".data = "/abc/x/".data := by decide
example : cleanPath "/a/b/../c".data = "/a/c".data := by decide
example : cleanPath "".data = "/".data := by decide
example : cleanPath "/../a".data = "/a".data := by decide
example : cleanPath "/a/..".data = "/".data := by decide
example : cleanPath (cleanPath "/a/../b//".data) = cleanPath "/a/../b//".data := by decide

theorem mem_foldl_cleanStep {x : List Char} :
    ∀ (segs acc : List (List Char)), x ∈ segs.foldl cleanStep acc → x ∈ acc ∨ x ∈ segs := by
  intro segs
  induction segs with
  | nil => exact fun acc h => Or.inl h
  | cons s rest ih =>
    intro acc h
    rcases ih (cleanStep acc s) h with h1 | h1
    · unfold cleanStep at h1
      split at h1
      · exact Or.inl h1
      · split at h1
        · exact Or.inl (List.mem_of_mem_tail h1)
        · rcases List.mem_cons.mp h1 with rfl | h1
          · exact Or.inr (List.mem_cons_self _ _)
          · exact Or.inl h1
    · exact Or.inr (List.mem_cons_of_mem _ h1)

theorem foldl_cleanStep_good :
    ∀ (segs acc : List (List Char)), (∀ x ∈ acc, goodSeg x) →
      ∀ x ∈ segs.foldl cleanStep acc, goodSeg x := by
  intro segs
  induction segs with
  | nil => exact fun acc hacc => hacc
  | cons s rest ih =>
    intro acc hacc
    refine ih _ ?_
    intro x hx
    unfold cleanStep at hx
    split at hx
    · exact hacc x hx
    · split at hx
      · exact hacc x (List.mem_of_mem_tail hx)
      · rcases List.mem_cons.mp hx with rfl | hx
        · rename_i hne1 hne2
          push_neg at hne1
          exact ⟨hne1.1, hne1.2, hne2⟩
        · exact hacc x hx

theorem foldl_cleanStep_of_good :
    ∀ (segs acc : List (List Char)), (∀ x ∈ segs, goodSeg x) →
      segs.foldl cleanStep acc = segs.reverse ++ acc := by
  intro segs
  induction segs with
  | nil => simp
  | cons s rest ih =>
    intro acc hg
    have hs := hg s (List.mem_cons_self _ _)
    have hstep : cleanStep acc s = s :: acc := by
      unfold cleanStep
      rw [if_neg (by push_neg; exact ⟨hs.1, hs.2.1⟩), if_neg hs.2.2]
    rw [List.foldl_cons, hstep, ih _ (fun x hx => hg x (List.mem_cons_of_mem _ hx))]
    simp

theorem not_mem_of_mem_splitOn {c : Char} :
    ∀ (p x : List Char), x ∈ p.splitOn c → c ∉ x := by
  intro p
  induction p with
  | nil =>
    intro x hx
    simp only [List.splitOn_nil, List.mem_singleton] at hx
    subst hx; simp
  | cons a rest ih =>
    intro x hx
    simp only [List.splitOn] at hx ih
    rw [List.splitOnP_cons] at hx
    by_cases hac : a = c
    · rw [if_pos (by simp [hac])] at hx
      rcases List.mem_cons.mp hx with rfl | hx
      · simp
      · exact ih x hx
    · rw [if_neg (by simp [hac])] at hx
      obtain ⟨hd, tl, heq⟩ : ∃ hd tl, rest.splitOnP (· == c) = hd :: tl := by
        cases h : rest.splitOnP (· == c) with
        | nil => exact absurd h (List.splitOnP_ne_nil _ rest)
        | cons hd tl => exact ⟨hd, tl, rfl⟩
      rw [heq] at hx
      simp only [List.modifyHead] at hx
      rcases List.mem_cons.mp hx with rfl | hx
      · intro hmem
        rcases List.mem_cons.mp hmem with rfl | hmem
        · exact hac rfl
        · exact ih hd (heq ▸ List.mem_cons_self _ _) hmem
      · exact ih x (heq ▸ List.mem_cons_of_mem _ hx)

theorem splitOn_cons_self (xs : List Char) :
    ('/' :: xs).splitOn '/' = [] :: xs.splitOn '/' := by
  simp [List.splitOn, List.splitOnP_cons]

theorem intercalate_cons_of_ne_nil (sep a : List Char) :
    ∀ (rest : List (List Char)), rest ≠ [] →
      List.intercalate sep (a :: rest) = a ++ sep ++ List.intercalate sep rest
  | [], h => absurd rfl h
  | b :: rest', _ => by
    simp [List.intercalate, List.intersperse_cons₂]

theorem intercalate_concat_nil :
    ∀ (out : List (List Char)), out ≠ [] →
      ['/'].intercalate (out ++ [[]]) = ['/'].intercalate out ++ ['/']
  | [], h => absurd rfl h
  | [a], _ => by simp [List.intercalate, List.intersperse]
  | a :: b :: rest, _ => by
    rw [List.cons_append,
      intercalate_cons_of_ne_nil ['/'] a (b :: rest ++ [[]]) (by simp),
      intercalate_cons_of_ne_nil ['/'] a (b :: rest) (List.cons_ne_nil _ _),
      intercalate_concat_nil (b :: rest) (List.cons_ne_nil _ _)]
    simp

theorem intercalate_ne_nil :
    ∀ (out : List (List Char)), out ≠ [] → (∀ x ∈ out, goodSeg x) →
      ['/'].intercalate out ≠ []
  | [], h, _ => absurd rfl h
  | [a], _, hg => by
    simpa [List.intercalate, List.intersperse] using (hg a (List.mem_cons_self _ _)).1
  | a :: b :: rest, _, hg => by
    rw [intercalate_cons_of_ne_nil ['/'] a (b :: rest) (List.cons_ne_nil _ _)]
    simp

theorem getLast?_not_slash_of_not_mem {a : List Char} (hs : '/' ∉ a) :
    a.getLast? ≠ some '/' := by
  intro h
  rcases List.mem_getLast?_eq_getLast (x := '/') (Option.mem_def.mpr h) with ⟨hne, hlast⟩
  exact hs (hlast ▸ List.getLast_mem hne)

theorem getLast?_slash_intercalate :
    ∀ (out : List (List Char)), out ≠ [] → (∀ x ∈ out, goodSeg x ∧ '/' ∉ x) →
      ('/' :: ['/'].intercalate out).getLast? ≠ some '/'
  | [], h, _ => absurd rfl h
  | [a], _, hg => by
    have ha := hg a (List.mem_cons_self _ _)
    have : ('/' :: ['/'].intercalate [a]) = ['/'] ++ a := by
      simp [List.intercalate, List.intersperse]
    rw [this, List.getLast?_append_of_ne_nil _ ha.1.1]
    exact getLast?_not_slash_of_not_mem ha.2
  | a :: b :: rest, _, hg => by
    have hrec := getLast?_slash_intercalate (b :: rest) (List.cons_ne_nil _ _)
      (fun x hx => hg x (List.mem_cons_of_mem _ hx))
    have hne : ['/'].intercalate (b :: rest) ≠ [] :=
      intercalate_ne_nil (b :: rest) (List.cons_ne_nil _ _)
        (fun x hx => (hg x (List.mem_cons_of_mem _ hx)).1)
    rw [intercalate_cons_of_ne_nil ['/'] a (b :: rest) (List.cons_ne_nil _ _)]
    have hsplit : ('/' :: (a ++ ['/'] ++ ['/'].intercalate (b :: rest)))
        = ('/' :: a) ++ ('/' :: ['/'].intercalate (b :: rest)) := by
      simp
    rw [hsplit, List.getLast?_append_of_ne_nil _ (List.cons_ne_nil _ _)]
    exact hrec

theorem pathClean_fixed (out : List (List Char))
    (hg : ∀ x ∈ out, goodSeg x) (hs : ∀ x ∈ out, '/' ∉ x) (hne : out ≠ []) :
    pathClean ('/' :: ['/'].intercalate out) = '/' :: ['/'].intercalate out := by
  unfold pathClean
  rw [splitOn_cons_self, List.splitOn_intercalate out '/' hs hne]
  rw [List.foldl_cons]
  have hstep : cleanStep [] [] = [] := by unfold cleanStep; simp
  rw [hstep, foldl_cleanStep_of_good out [] hg, List.append_nil, List.reverse_reverse]
  cases out with
  | nil => exact absurd rfl hne
  | cons a rest => rfl

theorem pathClean_fixed_slash (out : List (List Char))
    (hg : ∀ x ∈ out, goodSeg x) (hs : ∀ x ∈ out, '/' ∉ x) (hne : out ≠ []) :
    pathClean (('/' :: ['/'].intercalate out) ++ ['/']) = '/' :: ['/'].intercalate out := by
  have hrw : ('/' :: ['/'].intercalate out) ++ ['/']
      = '/' :: ['/'].intercalate (out ++ [[]]) := by
    rw [intercalate_concat_nil out hne, List.cons_append]
  have hs2 : ∀ x ∈ out ++ [[]], '/' ∉ x := by
    intro x hx
    rcases List.mem_append.mp hx with hx | hx
    · exact hs x hx
    · rcases List.mem_singleton.mp hx with rfl
      simp
  unfold pathClean
  rw [hrw, splitOn_cons_self, List.splitOn_intercalate (out ++ [[]]) '/' hs2 (by simp)]
  rw [List.foldl_cons]
  have hstep : cleanStep [] [] = [] := by unfold cleanStep; simp
  rw [hstep, List.foldl_append, foldl_cleanStep_of_good out [] hg, List.append_nil]
  have hstep2 : cleanStep out.reverse [] = out.reverse := by unfold cleanStep; simp
  simp only [List.foldl_cons, List.foldl_nil, hstep2, List.reverse_reverse]

theorem pathClean_cases (q : List Char) :
    pathClean q = ['/'] ∨
      ∃ out : List (List Char), out ≠ [] ∧ (∀ x ∈ out, goodSeg x) ∧ (∀ x ∈ out, '/' ∉ x) ∧
        pathClean q = '/' :: ['/'].intercalate out := by
  cases hout : ((q.splitOn '/').foldl cleanStep []).reverse with
  | nil => left; unfold pathClean; rw [hout]
  | cons a rest =>
    right
    have hmem : ∀ x ∈ a :: rest, x ∈ (q.splitOn '/').foldl cleanStep [] := by
      intro x hx
      have hx' : x ∈ ((q.splitOn '/').foldl cleanStep []).reverse := by
        rw [hout]; exact hx
      exact List.mem_reverse.mp hx'
    refine ⟨a :: rest, List.cons_ne_nil _ _, ?_, ?_, ?_⟩
    · exact fun x hx =>
        foldl_cleanStep_good (q.splitOn '/') [] (by simp) x (hmem x hx)
    · intro x hx
      rcases mem_foldl_cleanStep (q.splitOn '/') [] (hmem x hx) with h | h
      · simp at h
      · exact not_mem_of_mem_splitOn q x h
    · unfold pathClean; rw [hout]

theorem cleanPath_fixed (out : List (List Char))
    (hg : ∀ x ∈ out, goodSeg x) (hs : ∀ x ∈ out, '/' ∉ x) (hne : out ≠ []) :
    cleanPath ('/' :: ['/'].intercalate out) = '/' :: ['/'].intercalate out := by
  have hq : ('/' :: ['/'].intercalate out) ≠ [] := List.cons_ne_nil _ _
  simp only [cleanPath, if_neg hq, List.head?_cons, ne_eq, not_true_eq_false,
    reduceCtorEq, not_false_eq_true, if_false, ite_false, ite_not, if_true, ite_true]
  rw [pathClean_fixed out hg hs hne,
    if_neg (fun h => getLast?_slash_intercalate out hne (fun x hx => ⟨hg x hx, hs x hx⟩) h.1)]

theorem cleanPath_fixed_slash (out : List (List Char))
    (hg : ∀ x ∈ out, goodSeg x) (hs : ∀ x ∈ out, '/' ∉ x) (hne : out ≠ []) :
    cleanPath (('/' :: ['/'].intercalate out) ++ ['/'])
      = ('/' :: ['/'].intercalate out) ++ ['/'] := by
  have hq : ('/' :: ['/'].intercalate out) ++ ['/'] ≠ [] := by simp
  simp only [cleanPath, if_neg hq, List.cons_append, List.head?_cons, ne_eq,
    not_true_eq_false, reduceCtorEq, not_false_eq_true, if_false, ite_false, ite_not,
    if_true, ite_true]
  rw [← List.cons_append, pathClean_fixed_slash out hg hs hne,
    if_pos ⟨List.getLast?_concat _, fun h => (intercalate_ne_nil out hne hg) (List.cons_eq_cons.mp h).2⟩]

theorem cleanPath_eq_of_ne_nil {p : List Char} (hp : p ≠ []) :
    cleanPath p =
      if (if p.head? ≠ some '/' then '/' :: p else p).getLast? = some '/' ∧
          pathClean (if p.head? ≠ some '/' then '/' :: p else p) ≠ ['/'] then
        pathClean (if p.head? ≠ some '/' then '/' :: p else p) ++ ['/']
      else pathClean (if p.head? ≠ some '/' then '/' :: p else p) := by
  rw [cleanPath, if_neg hp]

theorem cleanPath_idem (p : List Char) : cleanPath (cleanPath p) = cleanPath p := by
  by_cases hp : p = []
  · subst hp; decide
  · rw [cleanPath_eq_of_ne_nil hp]
    rcases pathClean_cases (if p.head? ≠ some '/' then '/' :: p else p) with h |
      ⟨out, hne, hg, hs, heq⟩
    · rw [h]
      simp only [ne_eq, not_true_eq_false, and_false, if_false, ite_false]
      decide
    · rw [heq]
      by_cases hcond :
          (if p.head? ≠ some '/' then '/' :: p else p).getLast? = some '/' ∧
            ('/' :: ['/'].intercalate out) ≠ ['/']
      · rw [if_pos hcond]
        exact cleanPath_fixed_slash out hg hs hne
      · rw [if_neg hcond]
        exact cleanPath_fixed out hg hs hne

theorem cleanPath_trailing (p : List Char) (hroot : cleanPath p ≠ ['/']) :
    ((cleanPath p).getLast? = some '/') ↔ (p.getLast? = some '/') := by
  by_cases hp : p = []
  · subst hp; exact absurd (by decide) hroot
  · rw [cleanPath_eq_of_ne_nil hp] at hroot ⊢
    have hlast : (if p.head? ≠ some '/' then '/' :: p else p).getLast? = p.getLast? := by
      by_cases hh : p.head? = some '/'
      · rw [if_neg (not_not_intro hh)]
      · rw [if_pos hh]
        exact List.getLast?_append_of_ne_nil ['/'] hp
    by_cases hcond :
        (if p.head? ≠ some '/' then '/' :: p else p).getLast? = some '/' ∧
          pathClean (if p.head? ≠ some '/' then '/' :: p else p) ≠ ['/']
    · rw [if_pos hcond]
      exact iff_of_true (List.getLast?_concat _) (hlast ▸ hcond.1)
    · rw [if_neg hcond] at hroot ⊢
      have h1 : ¬ (if p.head? ≠ some '/' then '/' :: p else p).getLast? = some '/' :=
        fun h => hcond ⟨h, hroot⟩
      rcases pathClean_cases (if p.head? ≠ some '/' then '/' :: p else p) with h |
        ⟨out, hne, hg, hs, heq⟩
      · exact absurd h hroot
      · rw [heq]
        exact iff_of_false
          (getLast?_slash_intercalate out hne (fun x hx => ⟨hg x hx, hs x hx⟩))
          (fun h => h1 (hlast.trans h))

/-- C8: the router's path cleaner is idempotent, and for every input whose
cleaned form is not the root `/`, the cleaned path ends in a slash exactly
when the input does (trailing slashes are preserved on non-root paths). -/
theorem cleanPath_idempotent_trailing (p : List Char) :
    cleanPath (cleanPath p) = cleanPath p ∧
      (cleanPath p ≠ ['/'] →
        ((cleanPath p).getLast? = some '/' ↔ p.getLast? = some '/')) :=
  ⟨cleanPath_idem p, cleanPath_trailing p⟩

/-- Witness for C8 at the concrete path `/a//b/`. -/
theorem cleanPath_idempotent_trailing_witness :
    cleanPath (cleanPath "/a//b/".data) = cleanPath "/a//b/".data ∧
      ((cleanPath "/a//b/".data).getLast? = some '/' ↔
        ("/a//b/".data).getLast? = some '/') :=
  ⟨(cleanPath_idempotent_trailing _).1,
    (cleanPath_idempotent_trailing "/a//b/".data).2 (by decide)⟩

/-! ## C7: retry-exclusion filter -/

theorem filter_contains_eq (backends : List String) (nodes : List Node) :
    nodes.filter (fun n => !backends.contains n.address)
      = nodes.filter (fun n => decide (n.address ∉ backends)) := by
  apply List.filter_congr
  intro n _
  by_cases h : n.address ∈ backends <;> simp [h]

/-- C7: the retry-exclusion filter fails open: with no tried backends, or
when dropping every tried address would empty the node set, the original
node list is returned unchanged; otherwise exactly the nodes whose address
was not yet tried remain, in their original order (`List.filter` preserves
order). -/
theorem retryFilter_fail_open (backends : List String) (nodes : List Node) :
    (backends = [] → retryFilter backends nodes = nodes) ∧
      (nodes.filter (fun n => decide (n.address ∉ backends)) = [] →
        retryFilter backends nodes = nodes) ∧
      (backends ≠ [] → nodes.filter (fun n => decide (n.address ∉ backends)) ≠ [] →
        retryFilter backends nodes
          = nodes.filter (fun n => decide (n.address ∉ backends))) := by
  refine ⟨?_, ?_, ?_⟩
  · intro h
    subst h
    simp [retryFilter]
  · intro h
    rw [← filter_contains_eq] at h
    rw [retryFilter]
    split
    · rfl
    · rw [h]
      simp
  · intro hb hf
    rw [← filter_contains_eq] at hf ⊢
    rw [retryFilter, if_neg (by simpa [List.length_eq_zero] using hb)]
    rw [if_neg (by simpa [List.length_eq_zero] using hf)]

/-- Witness for C7: with tried set `a`, the node at `a` is dropped and the
node at `b` remains. -/
theorem retryFilter_fail_open_witness :
    retryFilter ["a"]
        [{ address := "a", name := "", weight := none, version := "", metadata := [],
           protocol := Protocol.http, tls := false },
         { address := "b", name := "", weight := none, version := "", metadata := [],
           protocol := Protocol.http, tls := false }]
      = [{ address := "b", name := "", weight := none, version := "", metadata := [],
           protocol := Protocol.http, tls := false }] :=
  (retryFilter_fail_open ["a"] _).2.2 (by decide) (by decide)

/-! ## C1: hot-reload atomicity of `Proxy.Update` -/

theorem updateLoop_all_ok (es : List EndpointBuild) :
    ∀ acc, (∀ e ∈ es, e.buildOk = true ∧ e.registerOk = true) →
      updateLoop es acc = (false, acc ++ es.map (fun e => e.closerId)) := by
  induction es with
  | nil => intro acc _; simp [updateLoop]
  | cons e rest ih =>
    intro acc h
    have he := h e (List.mem_cons_self _ _)
    simp only [updateLoop, he.1, he.2, Bool.not_true, Bool.false_eq_true, if_false,
      ite_false]
    rw [ih _ (fun x hx => h x (List.mem_cons_of_mem _ hx))]
    simp

theorem updateLoop_fail (es : List EndpointBuild) :
    ∀ acc, (¬ ∀ e ∈ es, e.buildOk = true ∧ e.registerOk = true) →
      (updateLoop es acc).1 = true ∧
      (updateLoop es acc).2 =
        acc ++ (es.takeWhile (fun e => e.buildOk && e.registerOk)).map
            (fun e => e.closerId)
          ++ (match (es.dropWhile (fun e => e.buildOk && e.registerOk)).head? with
              | some e => if e.buildOk then [e.closerId] else []
              | none => []) := by
  induction es with
  | nil => intro acc h; exact absurd (by simp) h
  | cons e rest ih =>
    intro acc h
    by_cases hok : e.buildOk = true ∧ e.registerOk = true
    · have hrest : ¬ ∀ x ∈ rest, x.buildOk = true ∧ x.registerOk = true := by
        intro hall
        exact h (fun x hx => by
          rcases List.mem_cons.mp hx with rfl | hx
          · exact hok
          · exact hall x hx)
      have hcond : (fun e : EndpointBuild => e.buildOk && e.registerOk) e = true := by
        simp [hok.1, hok.2]
      have hrec := ih (acc ++ [e.closerId]) hrest
      simp only [updateLoop, hok.1, hok.2, Bool.not_true, Bool.false_eq_true, if_false,
        ite_false]
      refine ⟨hrec.1, ?_⟩
      rw [hrec.2,
        List.takeWhile_cons_of_pos (p := fun e : EndpointBuild => e.buildOk && e.registerOk)
          hcond,
        List.dropWhile_cons_of_pos (p := fun e : EndpointBuild => e.buildOk && e.registerOk)
          hcond]
      simp
    · cases hb : e.buildOk with
      | false =>
        simp [updateLoop, hb, List.takeWhile_cons, List.dropWhile_cons]
      | true =>
        have hr : e.registerOk = false := by
          cases hreg : e.registerOk
          · rfl
          · exact absurd ⟨hb, hreg⟩ hok
        simp [updateLoop, hb, hr, List.takeWhile_cons, List.dropWhile_cons]

/-- C1: `Proxy.Update` is atomic: when every endpoint builds and registers,
the new router is installed, no error is returned and `closeOnError`
closes nothing; when any endpoint fails, an error is returned, the old
router stays installed, and every closer collected for an endpoint already
built in that call — the fully processed ones and, when registration was
what failed, the failing endpoint's own closer — is invoked. -/
theorem Update_atomicity (es : List EndpointBuild) :
    ((∀ e ∈ es, e.buildOk = true ∧ e.registerOk = true) →
      update es = { routerIsNew := true, errored := false, closed := [] }) ∧
    ((¬ ∀ e ∈ es, e.buildOk = true ∧ e.registerOk = true) →
      (update es).routerIsNew = false ∧ (update es).errored = true ∧
      (∀ e ∈ es.takeWhile (fun e => e.buildOk && e.registerOk),
        e.closerId ∈ (update es).closed) ∧
      (∀ e, (es.dropWhile (fun e => e.buildOk && e.registerOk)).head? = some e →
        e.buildOk = true → e.closerId ∈ (update es).closed)) := by
  constructor
  · intro h
    rw [update, updateLoop_all_ok es [] h]
  · intro h
    obtain ⟨h1, h2⟩ := updateLoop_fail es [] h
    rw [update]
    cases hE : updateLoop es [] with
    | mk fst snd =>
      rw [hE] at h1 h2
      simp only at h1 h2
      subst h1
      refine ⟨rfl, rfl, ?_, ?_⟩
      · intro e he
        simp only [UpdateResult.closed, List.mem_reverse]
        rw [h2]
        refine List.mem_append.mpr (Or.inl ?_)
        exact List.mem_append.mpr (Or.inr (List.mem_map.mpr ⟨e, he, rfl⟩))
      · intro e he hbuild
        simp only [UpdateResult.closed, List.mem_reverse]
        rw [h2, he]
        exact List.mem_append.mpr (Or.inr (by simp [hbuild]))

/-- Witness for C1: two endpoints, the second fails to register; the old
router stays, the error is returned, and both collected closers (ids 1 and
2) are closed. -/
theorem Update_atomicity_witness :
    (update [{ closerId := 1, buildOk := true, registerOk := true },
             { closerId := 2, buildOk := true, registerOk := false }]).routerIsNew
        = false ∧
      (update [{ closerId := 1, buildOk := true, registerOk := true },
               { closerId := 2, buildOk := true, registerOk := false }]).errored
        = true ∧
      1 ∈ (update [{ closerId := 1, buildOk := true, registerOk := true },
                   { closerId := 2, buildOk := true, registerOk := false }]).closed ∧
      2 ∈ (update [{ closerId := 1, buildOk := true, registerOk := true },
                   { closerId := 2, buildOk := true, registerOk := false }]).closed := by
  have h := (Update_atomicity
    [{ closerId := 1, buildOk := true, registerOk := true },
     { closerId := 2, buildOk := true, registerOk := false }]).2 (by decide)
  exact ⟨h.1, h.2.1,
    h.2.2.1 { closerId := 1, buildOk := true, registerOk := true } (by decide),
    h.2.2.2 { closerId := 2, buildOk := true, registerOk := false } (by decide) rfl⟩

/-! ## C3: breaker and context cancellation -/

/-- Counterexample to C3 as stated: a retry attempt (`i = 1`) failing with
`context.Canceled` does feed the breaker — `markFailed` invokes
`MarkFailed()` for every `i > 0`, whatever the error. -/
theorem markFailed_canceled_cex :
    (markFailed 1 { isCanceled := true, isDeadlineExceeded := false, msg := "" }).2
      = true := rfl

/-- C3 amended: for a retry attempt (`i > 0`) whose error is a context
cancellation, the failed-retry metric is not incremented, but the adaptive
breaker's `MarkFailed()` is still invoked. -/
theorem markFailed_canceled_spec (i : Int) (err : GoError)
    (hi : 0 < i) (hc : err.isCanceled = true) :
    (markFailed i err).1 = false ∧ (markFailed i err).2 = true := by
  unfold markFailed splitRetryFailed
  refine ⟨?_, by simp [hi]⟩
  rw [if_neg (by omega), if_pos hc]

/-- Witness for the amended C3 at `i = 1`. -/
theorem markFailed_canceled_spec_witness :
    (markFailed 1 { isCanceled := true, isDeadlineExceeded := false, msg := "" }).1
        = false ∧
      (markFailed 1 { isCanceled := true, isDeadlineExceeded := false, msg := "" }).2
        = true :=
  markFailed_canceled_spec 1 _ (by decide) rfl

/-! ## C4: transcoder content type -/

example : transcodeContentType "application/json".data
    = "application/grpc+json".data := by decide

/-- C4 failing input: for inbound content type `application/proto` the
transcoder sets `application/grpc+roto`, not `application/grpc+proto` —
`strings.TrimLeft` trims the character set of `application/`, which also
eats the leading `p` of `proto`, contradicting the code's own comment. -/
theorem transcodeContentType_proto :
    transcodeContentType "application/proto".data
      = "application/grpc+roto".data := by decide

/-! ## C5: transcoder request framing -/

/-- C5: the outbound body is exactly the flag byte 0, the body length as
four big-endian base-256 digits (the 32-bit value `L mod 2^32`), then the
captured body; `ContentLength` is `L + 5` and the inbound `Content-Length`
header is dropped. -/
theorem transcodeRequest_framing (ct : List Char) (b : List Nat) :
    (transcodeRequest ct b).body = 0 :: (putUint32BE b.length ++ b) ∧
      (putUint32BE b.length).length = 4 ∧
      (∀ d ∈ putUint32BE b.length, d < 256) ∧
      (putUint32BE b.length).foldl (fun a d => a * 256 + d) 0 = b.length % 2 ^ 32 ∧
      (transcodeRequest ct b).contentLength = b.length + 5 ∧
      (transcodeRequest ct b).hasContentLengthHeader = false := by
  refine ⟨rfl, rfl, ?_, ?_, rfl, rfl⟩
  · intro d hd
    simp only [putUint32BE, List.mem_cons, List.not_mem_nil, or_false] at hd
    rcases hd with rfl | rfl | rfl | rfl <;> omega
  · simp only [putUint32BE, List.foldl_cons, List.foldl_nil]
    omega

/-! ## C6: `writeError` status mapping -/

/-- C6: `writeError` maps cancellation or client disconnect to 499,
deadline exceeded to 504 and everything else to 502 (the status the
requests metric observes); for a non-gRPC endpoint that status is written;
for a gRPC endpoint the response carries HTTP 200 with
`Content-Type: application/grpc`, `Grpc-Status` equal to the canonical
gRPC code of the mapped status and `Grpc-Message` equal to the error
text. -/
theorem writeError_mapping (p : Protocol) (e : GoError) :
    ((e.isCanceled = true ∨ e.msg = "client disconnected") →
      (writeError p e).metricCode = 499) ∧
    (¬(e.isCanceled = true ∨ e.msg = "client disconnected") →
      e.isDeadlineExceeded = true → (writeError p e).metricCode = 504) ∧
    (¬(e.isCanceled = true ∨ e.msg = "client disconnected") →
      e.isDeadlineExceeded = false → (writeError p e).metricCode = 502) ∧
    (p ≠ Protocol.grpc →
      (writeError p e).statusCode = (writeError p e).metricCode ∧
      (writeError p e).contentType = none) ∧
    (p = Protocol.grpc →
      (writeError p e).statusCode = 200 ∧
      (writeError p e).contentType = some "application/grpc" ∧
      (writeError p e).grpcStatus = some (toGRPCCode ((writeError p e).metricCode)) ∧
      (writeError p e).grpcMessage = some e.msg) := by
  unfold writeError
  by_cases h1 : e.isCanceled = true ∨ e.msg = "client disconnected" <;>
    by_cases h2 : e.isDeadlineExceeded = true <;>
      cases p <;>
        simp_all

/-- Witness for C6: a deadline error on a gRPC endpoint maps to 504,
written as HTTP 200 with `Grpc-Status` 4. -/
theorem writeError_mapping_witness :
    (writeError Protocol.grpc
        { isCanceled := false, isDeadlineExceeded := true, msg := "x" }).metricCode
        = 504 ∧
      (writeError Protocol.grpc
        { isCanceled := false, isDeadlineExceeded := true, msg := "x" }).statusCode
        = 200 ∧
      (writeError Protocol.grpc
        { isCanceled := false, isDeadlineExceeded := true, msg := "x" }).grpcStatus
        = some 4 := by
  have h := writeError_mapping Protocol.grpc
    { isCanceled := false, isDeadlineExceeded := true, msg := "x" }
  have h504 := h.2.1 (by decide) rfl
  refine ⟨h504, (h.2.2.2.2 rfl).1, ?_⟩
  rw [(h.2.2.2.2 rfl).2.2.1, h504]
  decide

/-! ## C9: discovery nodes have TLS disabled -/

/-- C9: every node the discovery callback builds carries `tls = false`, and
an instance whose scheme-matching endpoints all claim `isSecure=true`
resolves to no address and is skipped (it contributes no node to the set
handed to the selector). -/
theorem callback_nodes_tls_off (protocol : Protocol)
    (services : List ServiceInstance) :
    (∀ n ∈ services.filterMap (nodeOfInstance protocol), n.tls = false) ∧
    (∀ ser ∈ services,
      (∀ e ∈ ser.endpoints, e.scheme = protocolScheme protocol → IsSecure e = true) →
      nodeOfInstance protocol ser = none) := by
  constructor
  · intro n hn
    rcases List.mem_filterMap.mp hn with ⟨ser, _, hser⟩
    simp only [nodeOfInstance] at hser
    split at hser
    · cases hser
    · cases hser
      rfl
  · intro ser _ hsec
    unfold nodeOfInstance
    have hnone : parseEndpoint ser.endpoints (protocolScheme protocol) false = "" := by
      unfold parseEndpoint
      rw [List.find?_eq_none.mpr ?_]
      intro u hu
      simp only [Bool.and_eq_true, beq_iff_eq, not_and]
      intro h1
      rw [hsec u hu h1]
      simp
    simp [hnone]

/-- Witness for C9: an instance whose only matching endpoint is secure is
skipped. -/
theorem callback_nodes_tls_off_witness :
    nodeOfInstance Protocol.http
      { id := "i1", version := "v1", name := "svc", metadata := [],
        endpoints := [{ scheme := "http", host := "1.2.3.4:80",
                        isSecureParam := "true" }] } = none :=
  (callback_nodes_tls_off Protocol.http
      [{ id := "i1", version := "v1", name := "svc", metadata := [],
         endpoints := [{ scheme := "http", host := "1.2.3.4:80",
                         isSecureParam := "true" }] }]).2
    _ (List.mem_singleton.mpr rfl) (by decide)

/-! ## C10: empty discovery notifications change nothing -/

/-- C10: an empty instance list never reaches the selector: the watcher's
update loop skips it (no cache write, no fan-out), and
`nodeApplier.Callback` returns before `picker.Apply`, leaving the
previously applied node set in place. -/
theorem empty_services_frame (protocol : Protocol) (cache : List ServiceInstance)
    (picker : List Node) :
    watchLoopIter cache (NextResult.ok []) = (cache, WatchEffect.skipped) ∧
      nodeApplierCallback false protocol [] picker = Except.ok picker := by
  exact ⟨rfl, rfl⟩

/-! ## C2: done-callback accounting -/

theorem LoopInv.mono {oc : Nat → AttemptOutcome} {cur cur' : Nat} {st : LoopState}
    (h : LoopInv oc cur st) (hle : cur ≤ cur') : LoopInv oc cur' st :=
  ⟨fun i hi => ⟨Nat.lt_of_lt_of_le (h.1 i hi).1 hle, (h.1 i hi).2⟩, h.2.1, h.2.2.1, h.2.2.2⟩

theorem attemptLoop_inv (re : Bool) (ba cd : Nat → Bool) (oc : Nat → AttemptOutcome) :
    ∀ (rem i : Nat) (st : LoopState), LoopInv oc i st →
      LoopInv oc (i + rem) (attemptLoop re ba cd oc i rem st) := by
  intro rem
  induction rem with
  | zero => intro i st h; exact h
  | succ rem ih =>
    intro i st h
    rw [show i + (rem + 1) = (i + 1) + rem by omega]
    simp only [attemptLoop]
    by_cases h1 : 0 < i ∧ re = false
    · rw [if_pos h1]; exact h.mono (by omega)
    rw [if_neg h1]
    by_cases h2 : 0 < i ∧ ba i = false
    · rw [if_pos h2]; exact h.mono (by omega)
    rw [if_neg h2]
    by_cases h3 : cd i = true
    · rw [if_pos h3]
      exact LoopInv.mono
        (show LoopInv oc i { st with errSet := true } from
          ⟨h.1, h.2.1, h.2.2.1, h.2.2.2⟩) (by omega)
    rw [if_neg h3]
    have hbound : ∀ x ∈ st.selected, x < i + 1 ∧ oc x ≠ AttemptOutcome.selectErr :=
      fun x hx => ⟨by have := (h.1 x hx).1; omega, (h.1 x hx).2⟩
    have hnotmem : i ∉ st.selected := fun hmem => by
      have := (h.1 i hmem).1; omega
    cases hoc : oc i with
    | selectErr =>
      refine ih (i + 1) _ ⟨hbound, h.2.1, h.2.2.1, ?_⟩
      intro j hj
      simp at hj
    | transportErr =>
      refine ih (i + 1) _ ⟨?_, ?_, ?_, ?_⟩
      · intro x hx
        rcases List.mem_append.mp hx with hx | hx
        · exact hbound x hx
        · rcases List.mem_singleton.mp hx with rfl
          exact ⟨by omega, by rw [hoc]; simp⟩
      · refine List.nodup_append.mpr ⟨h.2.1, List.nodup_singleton _, ?_⟩
        intro a ha hb
        rcases List.mem_singleton.mp hb with rfl
        exact hnotmem ha
      · show st.events ++ [(i, DoneKind.err)] = _
        rw [List.filter_append, h.2.2.1, List.map_append]
        congr 1
        simp [hoc]
      · intro j hj
        simp at hj
    | response rr bn cf =>
      have hinv' : LoopInv oc (i + 1)
          { st with
              errSet := false
              resp := some i
              doneFunc := some i
              selected := st.selected ++ [i] } := by
        refine ⟨?_, ?_, ?_, ?_⟩
        · intro x hx
          rcases List.mem_append.mp hx with hx | hx
          · exact hbound x hx
          · rcases List.mem_singleton.mp hx with rfl
            exact ⟨by omega, by rw [hoc]; simp⟩
        · refine List.nodup_append.mpr ⟨h.2.1, List.nodup_singleton _, ?_⟩
          intro a ha hb
          rcases List.mem_singleton.mp hb with rfl
          exact hnotmem ha
        · show st.events = _
          rw [List.filter_append, h.2.2.1, List.map_append]
          have : List.filter (fun i => decide (oc i = AttemptOutcome.transportErr)) [i]
              = [] := by simp [hoc]
          rw [this]
          simp
        · intro j hj
          rcases Option.some_inj.mp hj with rfl
          exact ⟨rfl, rr, bn, cf, hoc⟩
      cases rr with
      | true => exact ih (i + 1) _ hinv'
      | false => exact hinv'.mono (by omega)

theorem countP_nodup_ite {i : Nat} :
    ∀ {l : List Nat}, l.Nodup →
      l.countP (fun j => decide (j = i)) = if i ∈ l then 1 else 0
  | [], _ => by simp
  | a :: t, hl => by
    rcases List.nodup_cons.mp hl with ⟨ha, ht⟩
    rw [List.countP_cons, countP_nodup_ite ht]
    by_cases hai : a = i
    · subst hai
      simp [ha]
    · have hia : ¬ i = a := fun hh => hai hh.symm
      simp [List.mem_cons, hai, hia]

theorem finishRequest_err {oc : Nat → AttemptOutcome} {st : LoopState}
    (h : st.errSet = true) :
    finishRequest oc st =
      { finalState := st, wroteError := true, copiedResp := none,
        events := st.events } := by
  rw [finishRequest, if_pos h]

theorem finishRequest_noresp {oc : Nat → AttemptOutcome} {st : LoopState}
    (he : st.errSet = false) (hr : st.resp = none) :
    finishRequest oc st =
      { finalState := st, wroteError := false, copiedResp := none,
        events := st.events } := by
  rw [finishRequest, if_neg (by simp [he]), hr]

theorem finishRequest_resp {oc : Nat → AttemptOutcome} {st : LoopState}
    {j : Nat} {rr bn cf : Bool} (he : st.errSet = false)
    (hr : st.resp = some j) (hd : st.doneFunc = some j)
    (ho : oc j = AttemptOutcome.response rr bn cf) :
    finishRequest oc st =
      if bn then
        { finalState := st, wroteError := false, copiedResp := some j,
          events := st.events }
      else
        { finalState := st, wroteError := false, copiedResp := some j,
          events := st.events ++ [(j, if cf then DoneKind.err else DoneKind.reply)] } := by
  rcases st with ⟨es, resp0, df0, sel0, ev0⟩
  simp only at he hr hd
  subst he hr hd
  simp only [finishRequest, ho]
  rfl

theorem events_countP {oc : Nat → AttemptOutcome} {cur : Nat} {st : LoopState}
    (hinv : LoopInv oc cur st) (i : Nat) :
    st.events.countP (fun e => decide (e.1 = i))
      = if i ∈ st.selected.filter
            (fun k => decide (oc k = AttemptOutcome.transportErr)) then 1 else 0 := by
  rw [hinv.2.2.1, List.countP_map]
  exact countP_nodup_ite (hinv.2.1.filter _)

theorem loop_events_parts {oc : Nat → AttemptOutcome} {cur : Nat} {st : LoopState}
    (hinv : LoopInv oc cur st) :
    (∀ i, st.events.countP (fun e => decide (e.1 = i)) ≤ 1) ∧
    (∀ i ∈ st.selected, oc i = AttemptOutcome.transportErr →
      st.events.countP (fun e => decide (e.1 = i)) = 1 ∧
        (i, DoneKind.err) ∈ st.events) ∧
    (∀ i ∈ st.selected, oc i ≠ AttemptOutcome.transportErr →
      st.events.countP (fun e => decide (e.1 = i)) = 0) := by
  refine ⟨?_, ?_, ?_⟩
  · intro i
    rw [events_countP hinv i]
    split <;> omega
  · intro i hi hoc
    have hmem : i ∈ st.selected.filter
        (fun k => decide (oc k = AttemptOutcome.transportErr)) :=
      List.mem_filter.mpr ⟨hi, by simp [hoc]⟩
    refine ⟨by rw [events_countP hinv i, if_pos hmem], ?_⟩
    rw [hinv.2.2.1]
    exact List.mem_map.mpr ⟨i, hmem, rfl⟩
  · intro i hi hoc
    have hmem : i ∉ st.selected.filter
        (fun k => decide (oc k = AttemptOutcome.transportErr)) := by
      intro hmem
      exact hoc (by simpa using (List.mem_filter.mp hmem).2)
    rw [events_countP hinv i, if_neg hmem]

/-- Counterexample to C2 as stated: with two attempts whose first response
is rejected by the retry conditions and whose second succeeds, both
attempts select a node, but only the second node's done callback is ever
invoked — the first node's callback is overwritten and lost, so it is not
invoked exactly once. -/
theorem done_callback_once_cex :
    ¬ (∀ i ∈ (handleRequest 2 true (fun _ => true) (fun _ => false)
          (fun k => if k = 0 then AttemptOutcome.response true false false
                    else AttemptOutcome.response false false false)).finalState.selected,
        (handleRequest 2 true (fun _ => true) (fun _ => false)
          (fun k => if k = 0 then AttemptOutcome.response true false false
                    else AttemptOutcome.response false false false)).events.countP
          (fun e => decide (e.1 = i)) = 1) := by
  decide

/-- C2 amended: the done callback is invoked at most once per selected
node; exactly once, with the error, for a node whose transport call
failed; exactly once — with the copy error or the reply metadata — for the
node whose response is finally copied back with a non-nil body; and never
for any other selected node, in particular a node whose response was
rejected by the retry conditions but was not the response finally
written. -/
theorem done_callback_characterization (attempts : Nat) (re : Bool)
    (ba cd : Nat → Bool) (oc : Nat → AttemptOutcome) :
    (∀ i, (handleRequest attempts re ba cd oc).events.countP
        (fun e => decide (e.1 = i)) ≤ 1) ∧
    (∀ i ∈ (handleRequest attempts re ba cd oc).finalState.selected,
      oc i = AttemptOutcome.transportErr →
      (handleRequest attempts re ba cd oc).events.countP
          (fun e => decide (e.1 = i)) = 1 ∧
        (i, DoneKind.err) ∈ (handleRequest attempts re ba cd oc).events) ∧
    (∀ j rr cf, (handleRequest attempts re ba cd oc).copiedResp = some j →
      oc j = AttemptOutcome.response rr false cf →
      (handleRequest attempts re ba cd oc).events.countP
          (fun e => decide (e.1 = j)) = 1 ∧
        (j, if cf then DoneKind.err else DoneKind.reply)
          ∈ (handleRequest attempts re ba cd oc).events) ∧
    (∀ i ∈ (handleRequest attempts re ba cd oc).finalState.selected,
      oc i ≠ AttemptOutcome.transportErr →
      (handleRequest attempts re ba cd oc).copiedResp ≠ some i →
      (handleRequest attempts re ba cd oc).events.countP
          (fun e => decide (e.1 = i)) = 0) := by
  have hinv := attemptLoop_inv re ba cd oc attempts 0
    { errSet := false, resp := none, doneFunc := none, selected := [], events := [] }
    ⟨by simp, List.nodup_nil, by simp, by simp⟩
  rw [show handleRequest attempts re ba cd oc
      = finishRequest oc (attemptLoop re ba cd oc 0 attempts
          { errSet := false, resp := none, doneFunc := none, selected := [],
            events := [] }) from rfl]
  generalize hstE : attemptLoop re ba cd oc 0 attempts
    { errSet := false, resp := none, doneFunc := none, selected := [],
      events := [] } = st at hinv ⊢
  obtain ⟨p1, p2, p4⟩ := loop_events_parts hinv
  by_cases herr : st.errSet = true
  · rw [finishRequest_err herr]
    refine ⟨p1, fun i hi hoc => p2 i hi hoc, ?_, fun i hi hoc _ => p4 i hi hoc⟩
    intro j rr cf hcop
    exact absurd hcop (by simp)
  · have herr' : st.errSet = false := by
      revert herr; cases st.errSet <;> simp
    cases hresp : st.resp with
    | none =>
      rw [finishRequest_noresp herr' hresp]
      refine ⟨p1, fun i hi hoc => p2 i hi hoc, ?_, fun i hi hoc _ => p4 i hi hoc⟩
      intro j rr cf hcop
      exact absurd hcop (by simp)
    | some j =>
      obtain ⟨hdone, rr0, bn0, cf0, hoc0⟩ := hinv.2.2.2 j hresp
      rw [finishRequest_resp herr' hresp hdone hoc0]
      cases bn0 with
      | true =>
        rw [if_pos rfl]
        refine ⟨p1, fun i hi hoc => p2 i hi hoc, ?_, fun i hi hoc _ => p4 i hi hoc⟩
        intro j' rr cf hcop hoc'
        have hjj : j = j' := by simpa using hcop
        subst hjj
        rw [hoc0] at hoc'
        simp at hoc'
      | false =>
        rw [if_neg (by simp)]
        have hjnot : j ∉ st.selected.filter
            (fun k => decide (oc k = AttemptOutcome.transportErr)) := by
          intro hmem
          have h2 := (List.mem_filter.mp hmem).2
          rw [hoc0] at h2
          simp at h2
        have hev0 : st.events.countP (fun e => decide (e.1 = j)) = 0 := by
          rw [events_countP hinv j, if_neg hjnot]
        refine ⟨?_, ?_, ?_, ?_⟩
        · intro i
          simp only [List.countP_append]
          by_cases hij : i = j
          · subst hij
            rw [hev0]
            simp [List.countP_cons]
          · have hji : ¬ j = i := fun hh => hij hh.symm
            have ht : [(j, if cf0 = true then DoneKind.err else DoneKind.reply)].countP
                (fun e => decide (e.1 = i)) = 0 := by
              simp [List.countP_cons, hji]
            rw [ht]
            have := p1 i
            omega
        · intro i hi hoc
          have hij : i ≠ j := by
            intro hh
            subst hh
            rw [hoc0] at hoc
            cases hoc
          obtain ⟨hc, hm⟩ := p2 i hi hoc
          have hji : ¬ j = i := fun hh => hij hh.symm
          refine ⟨?_, List.mem_append.mpr (Or.inl hm)⟩
          simp only [List.countP_append, hc]
          simp [List.countP_cons, hji]
        · intro j' rr cf hcop hoc'
          have hjj : j = j' := by simpa using hcop
          subst hjj
          rw [hoc0] at hoc'
          have hcf : cf0 = cf := by
            injection hoc'
          subst hcf
          refine ⟨?_, List.mem_append.mpr (Or.inr (by simp))⟩
          simp only [List.countP_append, hev0]
          simp [List.countP_cons]
        · intro i hi hoc hcop
          have hij : i ≠ j := by
            intro hh
            subst hh
            exact hcop (by simp)
          have hji : ¬ j = i := fun hh => hij hh.symm
          simp only [List.countP_append, p4 i hi hoc]
          simp [List.countP_cons, hji]

/-- Witness for the amended C2 at the counterexample trace: the finally
copied response (attempt 1) gets exactly one reply invocation, and the
rejected response of attempt 0 gets none. -/
theorem done_callback_characterization_witness :
    (handleRequest 2 true (fun _ => true) (fun _ => false)
        (fun k => if k = 0 then AttemptOutcome.response true false false
                  else AttemptOutcome.response false false false)).events.countP
        (fun e => decide (e.1 = 1)) = 1 ∧
      (1, DoneKind.reply) ∈ (handleRequest 2 true (fun _ => true) (fun _ => false)
        (fun k => if k = 0 then AttemptOutcome.response true false false
                  else AttemptOutcome.response false false false)).events ∧
      (handleRequest 2 true (fun _ => true) (fun _ => false)
        (fun k => if k = 0 then AttemptOutcome.response true false false
                  else AttemptOutcome.response false false false)).events.countP
        (fun e => decide (e.1 = 0)) = 0 := by
  have h := done_callback_characterization 2 true (fun _ => true) (fun _ => false)
    (fun k => if k = 0 then AttemptOutcome.response true false false
              else AttemptOutcome.response false false false)
  have h3 := h.2.2.1 1 false false (by decide) (by decide)
  have h4 := h.2.2.2 0 (by decide) (by decide) (by decide)
  exact ⟨h3.1, h3.2, h4⟩

end Gateway
